import Mathlib

/-!
Verification of the forge-ai code-execution platform against its
natural-language specification.

Modelling conventions: Go strings are lists of characters (`Str`), Go
errors are `Except Str` values, and every nondeterministic interaction
with the operating system (what a spawned child process printed, how it
exited, whether the context deadline elapsed) is an explicit parameter
recording what the environment did.  Go `time.Duration` values are
counts of nanoseconds; all durations produced by the code are
non-negative, so they are modelled as `Nat`.
-/

/-- Go strings, modelled as lists of characters. -/
abbrev Str := List Char

/-- Helper for Go strings.Contains: `strStartsWith s p` is true when `p`
is an initial segment of `s`. -/
def strStartsWith : Str → Str → Bool
  | _, [] => true
  | [], _ :: _ => false
  | a :: s, b :: p => decide (a = b) && strStartsWith s p

/-- Go strings.Contains: true when `sub` occurs contiguously inside `s`. -/
def strContains : Str → Str → Bool
  | [], sub => strStartsWith [] sub
  | c :: s, sub => strStartsWith (c :: s) sub || strContains s sub

/-- The trailing-newline normalization performed by the security test
validator before its output-containment check. -/
def stripTrailingNewline (s : Str) : Str :=
  match s.getLast? with
  | some c => if c = '\n' then s.dropLast else s
  | none => s

/-- ExecutionResult (pkg/sandbox): the universal outcome of one execution
attempt.  `durationNs` models the Go `time.Duration` field in nanoseconds. -/
structure ExecutionResult where
  stdout : Str
  stderr : Str
  exitCode : Int
  durationNs : Nat
deriving DecidableEq

/-- The error value produced by Go `exec.Cmd.CombinedOutput`: either the
child ran and exited with a non-zero status (`exitErr`, an exec.ExitError
carrying the exit code) or the process could not be started or gave no
usable status (`startErr`, any other error with its message). -/
inductive RunFailure where
  | exitErr (code : Int)
  | startErr (msg : Str)
deriving DecidableEq

/-- Everything the environment decided during one child-process run:
the combined output captured, the elapsed wall-clock time, the error
returned by CombinedOutput (`none` means a clean exit status 0), and
whether the context deadline had elapsed when checked afterwards. -/
structure RunOutcome where
  output : Str
  durationNs : Nat
  failure : Option RunFailure
  deadlineExceeded : Bool
deriving DecidableEq

/-- Diagnostic written to stderr on a timeout. -/
def timedOutMsg : Str := "Execution timed out".toList

/-- The result-capture block shared verbatim by LocalExecutor.ExecuteFile,
SecureExecutor.ExecuteFile, ContainerizedExecutor.executeWithDocker,
ContainerizedExecutor.executeLocally and DockerExecutor.runContainer:
store the combined output in `stdout`, then check the deadline first,
then decode the CombinedOutput error into an exit code. -/
def captureResult (run : RunOutcome) : ExecutionResult :=
  if run.deadlineExceeded then
    { stdout := run.output, stderr := timedOutMsg, exitCode := -1, durationNs := run.durationNs }
  else
    match run.failure with
    | some (RunFailure.exitErr code) =>
      { stdout := run.output, stderr := [], exitCode := code, durationNs := run.durationNs }
    | some (RunFailure.startErr msg) =>
      { stdout := run.output, stderr := msg, exitCode := -1, durationNs := run.durationNs }
    | none =>
      { stdout := run.output, stderr := [], exitCode := 0, durationNs := run.durationNs }

/-- Language tag constants used throughout the repository. -/
def pythonTag : Str := "python".toList

def goTag : Str := "go".toList

def jsTag : Str := "javascript".toList

def unknownTag : Str := "unknown".toList

/-- Suffix test, modelling Go `filepath.Ext(filePath) == ".xy"` (for the
two-letter extensions used here this holds exactly when the path ends in
the three characters of the extension). -/
def strEndsWith (s sfx : Str) : Bool := strStartsWith s.reverse sfx.reverse

/-- LocalExecutor.getLanguageFromFile (identical copies exist in
SecureExecutor, ContainerizedExecutor and DockerExecutor): infer the
language from the file extension. -/
def getLanguageFromFile (filePath : Str) : Str :=
  if strEndsWith filePath (".py".toList) then pythonTag
  else if strEndsWith filePath (".go".toList) then goTag
  else if strEndsWith filePath (".js".toList) then jsTag
  else unknownTag

/-- LocalExecutor.getCommandForLanguage (identical copies in SecureExecutor
and ContainerizedExecutor): the argv to run a file, or an unsupported
language error. -/
def getCommandForLanguage (language filePath : Str) : Except Str (List Str) :=
  if language = pythonTag then Except.ok [pythonTag, filePath]
  else if language = goTag then Except.ok [goTag, "run".toList, filePath]
  else if language = jsTag then Except.ok ["node".toList, filePath]
  else Except.error ("unsupported language: ".toList ++ language)

/-- LocalExecutor.writeCodeToFile (identical copies in SecureExecutor,
ContainerizedExecutor.writeCodeToFile and DockerExecutor): map the
language to its canonical file name inside `tempDir` or fail with an
unsupported language error; the file contents are not tracked by the
model, and operating-system write failures are outside it. -/
def writeCodeToFile (tempDir language _code : Str) : Except Str Str :=
  if language = pythonTag then Except.ok (tempDir ++ "/main.py".toList)
  else if language = goTag then Except.ok (tempDir ++ "/main.go".toList)
  else if language = jsTag then Except.ok (tempDir ++ "/main.js".toList)
  else Except.error ("unsupported language: ".toList ++ language)

/-- LocalExecutor.ExecuteFile: resolve the language from the extension,
fail for an unsupported language before any process is spawned, otherwise
run the command and capture its outcome. -/
def localExecuteFile (filePath : Str) (run : RunOutcome) : Except Str ExecutionResult :=
  let language := getLanguageFromFile filePath
  match getCommandForLanguage language filePath with
  | Except.error _ => Except.error ("unsupported language: ".toList ++ language)
  | Except.ok _ => Except.ok (captureResult run)

/-- LocalExecutor.Execute: write the source into an ephemeral directory
(failing first on an unsupported language), then delegate to ExecuteFile. -/
def localExecute (language code tempDir : Str) (run : RunOutcome) : Except Str ExecutionResult :=
  match writeCodeToFile tempDir language code with
  | Except.error e => Except.error ("failed to write code to file: ".toList ++ e)
  | Except.ok filePath => localExecuteFile filePath run

/-- SecureExecutor.ExecuteFile: identical control flow to
LocalExecutor.ExecuteFile (the extra hardening is commented-out future
work in the source). -/
def secureExecuteFile (filePath : Str) (run : RunOutcome) : Except Str ExecutionResult :=
  let language := getLanguageFromFile filePath
  match getCommandForLanguage language filePath with
  | Except.error _ => Except.error ("unsupported language: ".toList ++ language)
  | Except.ok _ => Except.ok (captureResult run)

/-- The in-container argv switch of ContainerizedExecutor.executeWithDocker;
its default branch is an unsupported-language error raised before any
process is spawned. -/
def containerizedRunCommand (language filename : Str) : Except Str (List Str) :=
  if language = pythonTag then Except.ok [pythonTag, filename]
  else if language = goTag then Except.ok [goTag, "run".toList, filename]
  else if language = jsTag then Except.ok ["node".toList, filename]
  else Except.error ("unsupported language: ".toList ++ language)

/-- ContainerizedExecutor.executeWithDocker: build the docker argv (failing
on an unsupported language) and otherwise capture the run outcome with the
shared capture block. -/
def containerizedExecuteWithDocker (language filePath : Str) (run : RunOutcome) :
    Except Str ExecutionResult :=
  match containerizedRunCommand language filePath with
  | Except.error e => Except.error e
  | Except.ok _ => Except.ok (captureResult run)

/-- ContainerizedExecutor.executeLocally: the fallback used when docker is
unavailable; same structure as LocalExecutor.ExecuteFile. -/
def containerizedExecuteLocally (language filePath : Str) (run : RunOutcome) :
    Except Str ExecutionResult :=
  match getCommandForLanguage language filePath with
  | Except.error _ => Except.error ("unsupported language: ".toList ++ language)
  | Except.ok _ => Except.ok (captureResult run)

/-- ContainerizedExecutor.ExecuteFile: fall back to secure local execution
when docker is unavailable, otherwise execute with docker. -/
def containerizedExecuteFile (filePath : Str) (dockerAvailable : Bool) (run : RunOutcome) :
    Except Str ExecutionResult :=
  let language := getLanguageFromFile filePath
  if dockerAvailable = false then containerizedExecuteLocally language filePath run
  else containerizedExecuteWithDocker language filePath run

/-- DockerExecutor.SupportedLanguages. -/
def dockerSupportedLanguages : List Str := [pythonTag, goTag, jsTag]

/-- DockerExecutor.isLanguageSupported: linear scan of the supported list. -/
def dockerIsLanguageSupported (language : Str) : Bool :=
  dockerSupportedLanguages.contains language

/-- Environment facts consumed by DockerExecutor.runContainer: whether the
docker engine answers on the host, whether the image pull succeeded, and
the outcome of the container run itself. -/
structure DockerEnv where
  dockerAvailable : Bool
  pullOk : Bool
  run : RunOutcome
deriving DecidableEq

/-- DockerExecutor.runContainer: fail if docker is unreachable or the pull
fails, fail on the argv switch default for an unsupported language, and
otherwise capture the run outcome with the shared capture block. -/
def dockerRunContainer (language : Str) (env : DockerEnv) : Except Str ExecutionResult :=
  if env.dockerAvailable = false then Except.error ("docker is not available".toList)
  else if env.pullOk = false then Except.error ("failed to pull image".toList)
  else if language = pythonTag ∨ language = goTag ∨ language = jsTag then
    Except.ok (captureResult env.run)
  else Except.error ("unsupported language: ".toList ++ language)

/-- DockerExecutor.ExecuteFile: infer the language, reject unsupported
languages before reaching runContainer, and wrap runContainer failures. -/
def dockerExecuteFile (filePath : Str) (env : DockerEnv) : Except Str ExecutionResult :=
  let language := getLanguageFromFile filePath
  if dockerIsLanguageSupported language = false then
    Except.error ("unsupported language: ".toList ++ language)
  else
    match dockerRunContainer language env with
    | Except.error e => Except.error ("container execution failed: ".toList ++ e)
    | Except.ok r => Except.ok r

/-- DockerExecutor.Execute: write the source (failing first on an
unsupported language), then delegate to ExecuteFile. -/
def dockerExecute (language code tempDir : Str) (env : DockerEnv) : Except Str ExecutionResult :=
  match writeCodeToFile tempDir language code with
  | Except.error e => Except.error ("failed to write code to file: ".toList ++ e)
  | Except.ok filePath => dockerExecuteFile filePath env

/-- ContainerExecutor.createTempDir: placeholder returning a fixed path. -/
def containerCreateTempDir : Str := "/tmp/forgeai-container".toList

/-- ContainerExecutor.getFileExtension. -/
def containerGetFileExtension (language : Str) : Str :=
  if language = pythonTag then "py".toList
  else if language = goTag then "go".toList
  else if language = jsTag then "js".toList
  else "txt".toList

/-- ContainerExecutor.writeCodeToFile: placeholder that only computes the
file name; it never fails, whatever the language. -/
def containerWriteCodeToFile (tempDir language _code : Str) : Str :=
  tempDir ++ "/main.".toList ++ containerGetFileExtension language

/-- ContainerExecutor.getLanguageFromFile: placeholder that always answers
python. -/
def containerGetLanguageFromFile (_filePath : Str) : Str := pythonTag

/-- ContainerExecutor.isLanguageSupported: placeholder that always answers
true. -/
def containerIsLanguageSupported (_language : Str) : Bool := true

/-- ContainerExecutor.getImageForLanguage. -/
def containerGetImageForLanguage (language : Str) : Str :=
  if language = pythonTag then "python:3.9-alpine".toList
  else if language = goTag then "golang:1.19-alpine".toList
  else if language = jsTag then "node:16-alpine".toList
  else "alpine:latest".toList

/-- ContainerExecutor.runContainer: placeholder returning a canned
successful result; no process is spawned. -/
def containerRunContainer (language image : Str) : ExecutionResult :=
  { stdout := "Container execution would run ".toList ++ language ++
      " code in ".toList ++ image ++ " container".toList,
    stderr := [], exitCode := 0, durationNs := 100000000 }

/-- ContainerExecutor.ExecuteFile: language inference and support check are
both placeholders, so every file is treated as python and accepted. -/
def containerExecuteFile (filePath : Str) : Except Str ExecutionResult :=
  let language := containerGetLanguageFromFile filePath
  if containerIsLanguageSupported language = false then
    Except.error ("unsupported language: ".toList ++ language)
  else Except.ok (containerRunContainer language (containerGetImageForLanguage language))

/-- ContainerExecutor.Execute: the placeholder write step cannot fail, so
every language reaches ExecuteFile. -/
def containerExecute (language code : Str) : Except Str ExecutionResult :=
  containerExecuteFile (containerWriteCodeToFile containerCreateTempDir language code)

/-- Concrete run outcome for the C3 witness: the deadline elapsed while
partial output and a child failure were also recorded. -/
def timeoutRunExample : RunOutcome :=
  { output := "some output".toList, durationNs := 30000000000,
    failure := some (RunFailure.exitErr 1), deadlineExceeded := true }

/-- The persistent CLI flags (pkg/cli globals set by cobra). -/
structure CLIFlags where
  jsonOutput : Bool
  containerized : Bool
  pluginDir : Str
  timeoutNs : Nat
  memoryLimit : Int

/-- Which executor shape cli.getExecutor resolves to. -/
inductive ExecutorChoice where
  | compositeStrategy (useContainer : Bool)
  | dockerStrategy
  | localStrategy
deriving DecidableEq

/-- cli.getExecutor: a composite executor when the plugin directory flag is
set (with UseContainer copied from the container flag), otherwise the
docker executor when the container flag is set, otherwise the local
executor. -/
def getExecutor (flags : CLIFlags) : ExecutorChoice :=
  if flags.pluginDir ≠ [] then ExecutorChoice.compositeStrategy flags.containerized
  else if flags.containerized then ExecutorChoice.dockerStrategy
  else ExecutorChoice.localStrategy

/-- CompositeExecutor.Execute: consult the plugin manager map first
(`plugins` models Manager.GetExecutor over the loaded registration map of
type language to plugin, `α` standing for the plugin executor bound to a
binary); only when no plugin claims the language fall back to the docker
executor or the local executor according to UseContainer.  The behavior of
each underlying executor is a parameter, absorbing its configuration. -/
def compositeExecute {α : Type} (plugins : Str → Option α) (useContainer : Bool)
    (pluginExec : α → Str → Str → Except Str ExecutionResult)
    (dockerExec localExec : Str → Str → Except Str ExecutionResult)
    (language code : Str) : Except Str ExecutionResult :=
  match plugins language with
  | some p => pluginExec p language code
  | none => if useContainer then dockerExec language code else localExec language code

/-- Concrete plugin registration map for the C5 witness: one plugin bound
to the language python, which the local and docker strategies also
support. -/
def examplePluginMap : Str → Option Nat :=
  fun language => if language = pythonTag then some 0 else none

/-- Concrete plugin behavior for the C5 witness. -/
def examplePluginExec : Nat → Str → Str → Except Str ExecutionResult :=
  fun _ _ _ => Except.ok ⟨"from plugin".toList, [], 0, 0⟩

/-- Concrete docker behavior for the C5 witness. -/
def exampleDockerExec : Str → Str → Except Str ExecutionResult :=
  fun _ _ => Except.ok ⟨"from docker".toList, [], 0, 0⟩

/-- Concrete local behavior for the C5 witness. -/
def exampleLocalExec : Str → Str → Except Str ExecutionResult :=
  fun _ _ => Except.ok ⟨"from local".toList, [], 0, 0⟩

/-- Job (pkg/api): one asynchronous execution request; statuses are the
strings pending, running, completed, failed and cancelled.  Timestamp
fields, which no verified claim consults, are left out of the model. -/
structure Job where
  id : Str
  status : Str
  language : Str
  code : Str
  filePath : Str
  timeout : Int
  memoryLimit : Int
  networkAccess : Bool
  result : Option ExecutionResult
  error : Str
deriving DecidableEq

/-- JobManager.ListJobs: keep exactly the jobs passing both optional
exact-match filters; an empty filter string accepts every job.  The Go
code walks a map, so the model quantifies over an arbitrary ordering of
the stored jobs. -/
def listJobs (jobs : List Job) (status language : Str) : List Job :=
  jobs.filter fun job =>
    (decide (status = []) || decide (job.status = status)) &&
    (decide (language = []) || decide (job.language = language))

/-- Server-side defaulting in handleExecuteCode: a zero timeout becomes 30
and a zero memory limit becomes 128; any other decoded value, including a
negative one, is stored on the job unchanged. -/
def handleExecuteCodeDefaults (timeout memoryLimit : Int) : Int × Int :=
  (if timeout = 0 then 30 else timeout, if memoryLimit = 0 then 128 else memoryLimit)

/-- Server-side defaulting in handleExecuteFile, identical to the code
handler. -/
def handleExecuteFileDefaults (timeout memoryLimit : Int) : Int × Int :=
  (if timeout = 0 then 30 else timeout, if memoryLimit = 0 then 128 else memoryLimit)

/-- What happened to one plugin subprocess: it could not be started at
all, or it ran and exited with a status code, an error text (as Go
renders it; meaningful only for a non-zero status) and its combined
output. -/
inductive PluginRun where
  | notStarted (errMsg : Str)
  | exited (code : Int) (errMsg : Str) (output : Str)
deriving DecidableEq

/-- The error reported by CombinedOutput for a plugin subprocess: non-nil
exactly when the process could not start or exited non-zero. -/
def combinedOutputErr : PluginRun → Option Str
  | PluginRun.notStarted msg => some msg
  | PluginRun.exited code msg _ => if code = 0 then none else some msg

/-- The combined output captured from a plugin subprocess. -/
def pluginRunOutput : PluginRun → Str
  | PluginRun.notStarted _ => []
  | PluginRun.exited _ _ output => output

/-- ExternalExecutor.Execute: fail when CombinedOutput reported an error,
without looking at the captured output; otherwise parse the output as an
ExecutionResult (`parse` models the JSON unmarshalling, whose own error
detail is not tracked). -/
def externalExecute (parse : Str → Option ExecutionResult) (run : PluginRun) :
    Except Str ExecutionResult :=
  match combinedOutputErr run with
  | some msg => Except.error ("failed to execute code: ".toList ++ msg)
  | none =>
    match parse (pluginRunOutput run) with
    | none => Except.error ("failed to parse result".toList)
    | some r => Except.ok r

/-- ExternalExecutor.ExecuteFile: identical control flow, with the file
variant of the error prefix. -/
def externalExecuteFile (parse : Str → Option ExecutionResult) (run : PluginRun) :
    Except Str ExecutionResult :=
  match combinedOutputErr run with
  | some msg => Except.error ("failed to execute file: ".toList ++ msg)
  | none =>
    match parse (pluginRunOutput run) with
    | none => Except.error ("failed to parse result".toList)
    | some r => Except.ok r

/-- A parse function for the C9 witness that accepts any output as a
well-formed ExecutionResult. -/
def pluginParseAccepting : Str → Option ExecutionResult :=
  fun _ => some ⟨"canned".toList, [], 0, 7⟩

/-- A parse function for the C9 witness that rejects every output. -/
def pluginParseRejecting : Str → Option ExecutionResult :=
  fun _ => none

/-- TestResult (pkg/security): the expected outcome of one security test
case; unset Go fields hold their zero values. -/
structure TestResult where
  shouldBeContained : Bool
  expectedExitCode : Int
  expectedOutput : Str
deriving DecidableEq

/-- TestCase (pkg/security): one adversarial payload with its expected
outcome. -/
structure TestCase where
  name : Str
  code : Str
  language : Str
  description : Str
  category : Str
  expectedResult : TestResult
deriving DecidableEq

/-- TestReport (pkg/security): the adjudicated outcome of running one
test case. -/
structure TestReport where
  testCase : TestCase
  actualResult : Option ExecutionResult
  exitCode : Int
  durationNs : Nat
  passed : Bool
  error : Option Str
deriving DecidableEq

/-- TestFramework.validateTestResult: for a containment-expecting case,
pass on the timeout sentinel, on any non-zero exit, on the declared
output substring occurring in the (trailing-newline-stripped) stdout, or
on any non-empty stderr; for a case not expecting containment, pass only
on the exact expected exit code and, when an output substring is
declared, that substring occurring in stdout. -/
def validateTestResult (test : TestCase) (result : ExecutionResult) : Bool :=
  let expected := test.expectedResult
  if expected.shouldBeContained then
    if result.exitCode = -1 then true
    else if result.exitCode ≠ 0 then true
    else if expected.expectedOutput ≠ [] ∧ result.stdout ≠ [] then
      (let stdout := stripTrailingNewline result.stdout
       if strContains stdout expected.expectedOutput = true ∨ stdout = expected.expectedOutput
       then true
       else if result.stderr ≠ [] then true else false)
    else if result.stderr ≠ [] then true
    else false
  else
    if result.exitCode = expected.expectedExitCode then
      if expected.expectedOutput ≠ [] then
        if strContains result.stdout expected.expectedOutput = true ∨
            result.stdout = expected.expectedOutput
        then true
        else false
      else true
    else false

/-- TestFramework.RunTest: the duration is always recorded; when the
executor call itself fails the passed flag is a copy of the containment
expectation and no result is attached; otherwise the result is attached
and adjudicated by validateTestResult.  The Go `report.ExitCode` keeps
its zero value on the error path. -/
def runTest (test : TestCase) (outcome : Except Str ExecutionResult) (durationNs : Nat) :
    TestReport :=
  match outcome with
  | Except.error e =>
    { testCase := test, actualResult := none, exitCode := 0, durationNs := durationNs,
      passed := test.expectedResult.shouldBeContained, error := some e }
  | Except.ok r =>
    { testCase := test, actualResult := some r, exitCode := r.exitCode, durationNs := durationNs,
      passed := validateTestResult test r, error := none }

/-- First fixed catalogue case: CPU exhaustion by infinite loop. -/
def cpuExhaustionCase : TestCase :=
  { name := "CPU Exhaustion - Infinite Loop".toList,
    code := "while True: pass".toList,
    language := pythonTag,
    description := "Tests CPU exhaustion through infinite loop".toList,
    category := "Resource Exhaustion".toList,
    expectedResult := { shouldBeContained := true, expectedExitCode := -1, expectedOutput := [] } }

/-- Second fixed catalogue case: memory exhaustion by unbounded list. -/
def memoryExhaustionCase : TestCase :=
  { name := "Memory Exhaustion - Large List".toList,
    code := "a = []; while True: a.append(\x27x\x27 * 1000000)".toList,
    language := pythonTag,
    description := "Tests memory exhaustion through large list allocation".toList,
    category := "Resource Exhaustion".toList,
    expectedResult := { shouldBeContained := true, expectedExitCode := 1, expectedOutput := [] } }

/-- Third fixed catalogue case: sensitive file access. -/
def fileSystemCase : TestCase :=
  { name := "File System Access - Sensitive File".toList,
    code := ("try:\n    with open(\x27/etc/passwd\x27, \x27r\x27) as f:\n" ++
      "        print(f.read())\nexcept:\n    print(\x27Access denied\x27)").toList,
    language := pythonTag,
    description := "Tests file system access to sensitive files".toList,
    category := "File System Attacks".toList,
    expectedResult :=
      { shouldBeContained := true, expectedExitCode := 0,
        expectedOutput := "Access denied".toList } }

/-- Fourth fixed catalogue case: outbound network connection. -/
def networkCase : TestCase :=
  { name := "Network Access - External Connection".toList,
    code := ("import socket\ntry:\n    s = socket.socket(socket.AF_INET, socket.SOCK_STREAM)\n" ++
      "    s.connect((\x27google.com\x27, 80))\n    print(\x27Connection successful\x27)\n" ++
      "    s.close()\nexcept:\n    print(\x27Network access denied\x27)").toList,
    language := pythonTag,
    description := "Tests network access to external sites".toList,
    category := "Network Attacks".toList,
    expectedResult :=
      { shouldBeContained := true, expectedExitCode := 0,
        expectedOutput := "Network access denied".toList } }

/-- Fifth fixed catalogue case: valid code, expected not to be contained. -/
def validCodeCase : TestCase :=
  { name := "Valid Code Execution".toList,
    code := "print(\x27Hello, World!\x27)".toList,
    language := pythonTag,
    description := "Tests valid code execution".toList,
    category := "Valid Execution".toList,
    expectedResult :=
      { shouldBeContained := false, expectedExitCode := 0,
        expectedOutput := "Hello, World!".toList } }

/-- The fixed five-case catalogue built by NewTestFramework. -/
def securityTests : List TestCase :=
  [cpuExhaustionCase, memoryExhaustionCase, fileSystemCase, networkCase, validCodeCase]

/-- PerformanceMetrics (pkg/performance): aggregates for one
(executor, workload) measurement; the success rate is Go float64
arithmetic, exact for these small integer operands and modelled in ℚ. -/
structure PerformanceMetrics where
  executorName : Str
  testCaseName : Str
  totalExecutions : Nat
  successfulExecutions : Nat
  failedExecutions : Nat
  totalTimeNs : Nat
  averageTimeNs : Nat
  minTimeNs : Nat
  maxTimeNs : Nat
  successRate : ℚ
deriving DecidableEq

/-- The metrics value runPerformanceTest starts from: MinTime is seeded
with one hour in nanoseconds, MaxTime with zero, and the remaining fields
hold Go zero values. -/
def perfInit (executorName testCaseName : Str) : PerformanceMetrics :=
  { executorName := executorName, testCaseName := testCaseName,
    totalExecutions := 0, successfulExecutions := 0, failedExecutions := 0,
    totalTimeNs := 0, averageTimeNs := 0, minTimeNs := 3600000000000, maxTimeNs := 0,
    successRate := 0 }

/-- The mutex-protected per-run update of runPerformanceTest: count the
run as successful or failed, add its duration to the running total, and
update the running minimum and maximum.  The sequential Go statements
read only fields they own, so they are written as one record update. -/
def recordSample (m : PerformanceMetrics) (s : Nat × Bool) : PerformanceMetrics :=
  { m with
    successfulExecutions := m.successfulExecutions + (if s.2 then 1 else 0),
    failedExecutions := m.failedExecutions + (if s.2 then 0 else 1),
    totalTimeNs := m.totalTimeNs + s.1,
    minTimeNs := if s.1 < m.minTimeNs then s.1 else m.minTimeNs,
    maxTimeNs := if s.1 > m.maxTimeNs then s.1 else m.maxTimeNs }

/-- runPerformanceTest (pkg/performance): fold the ten timed runs (each a
duration and a success flag, folded in an arbitrary completion order) and
derive the aggregate fields; numTests is the constant 10 and the average
is Go integer division of durations. -/
def runPerformanceTest (executorName testCaseName : Str) (samples : List (Nat × Bool)) :
    PerformanceMetrics :=
  let m := samples.foldl recordSample (perfInit executorName testCaseName)
  { m with totalExecutions := 10,
           averageTimeNs := m.totalTimeNs / 10,
           successRate := (m.successfulExecutions : ℚ) / 10 * 100 }

/-- Ten concrete timed runs for the C7 witness. -/
def perfSamplesExample : List (Nat × Bool) :=
  [(5, true), (7, false), (3, true), (10, true), (2, true),
   (8, true), (6, true), (4, true), (9, true), (1, true)]

/-- The five job status strings of the HTTP job manager. -/
def pendingS : Str := "pending".toList

def runningS : Str := "running".toList

def completedS : Str := "completed".toList

def failedS : Str := "failed".toList

def cancelledS : Str := "cancelled".toList

/-- The status-mutating critical sections taken on one job record, each
performed under the job-manager lock: the worker entering ExecuteJob
(`beginExec`), the worker finishing ExecuteJob with or without an executor
error (`finishExec`), and a CancelJob request (`cancel`).  GetJob and
ListJobs never write. -/
inductive JobEvent where
  | beginExec
  | finishExec (ok : Bool)
  | cancel
deriving DecidableEq

/-- Effect of one critical section on the Status field: ExecuteJob sets
running unconditionally on entry and completed or failed unconditionally
on exit (it never rechecks the current status), while CancelJob moves to
cancelled only from pending or running and otherwise leaves the status
alone. -/
def jobStep (s : Str) : JobEvent → Str
  | JobEvent.beginExec => runningS
  | JobEvent.finishExec ok => if ok then completedS else failedS
  | JobEvent.cancel => if s = pendingS ∨ s = runningS then cancelledS else s

/-- The statuses a job record holds over time, starting from the given
status and applying each event in order. -/
def statusTrace (s : Str) : List JobEvent → List Str
  | [] => [s]
  | e :: es => s :: statusTrace (jobStep s e) es

/-- Collapse consecutive repeats, turning the stored-status timeline into
the sequence of statuses an observer sees the record pass through. -/
def dedupConsec : List Str → List Str
  | [] => []
  | [a] => [a]
  | a :: b :: r => if a = b then dedupConsec (b :: r) else a :: dedupConsec (b :: r)

/-- True for the two worker events, false for a cancel request. -/
def nonCancel : JobEvent → Bool
  | JobEvent.cancel => false
  | _ => true

/-- The event interleavings the server can generate for one job created by
a POST execute endpoint: the dispatched worker contributes exactly one
beginExec followed later by exactly one finishExec, with any number of
cancel requests interleaved anywhere. -/
def isWorkerTrace (es : List JobEvent) : Bool :=
  match es.filter nonCancel with
  | [JobEvent.beginExec, JobEvent.finishExec _] => true
  | _ => false

/-- The status sequences asserted by the specification sentence under
test. -/
def specAllowedTraces : List (List Str) :=
  [[pendingS, completedS], [pendingS, failedS],
   [pendingS, runningS, completedS], [pendingS, runningS, failedS],
   [pendingS, runningS, cancelledS]]

/-- The status sequences the code can actually produce: the worker always
drives the record through running to a terminal completed or failed,
overwriting an intervening cancelled. -/
def amendedAllowedTraces : List (List Str) :=
  [[pendingS, runningS, completedS], [pendingS, runningS, failedS],
   [pendingS, cancelledS, runningS, completedS], [pendingS, cancelledS, runningS, failedS],
   [pendingS, runningS, cancelledS, completedS], [pendingS, runningS, cancelledS, failedS],
   [pendingS, cancelledS, runningS, cancelledS, completedS],
   [pendingS, cancelledS, runningS, cancelledS, failedS]]

theorem strStartsWith_iff (s p : Str) : strStartsWith s p = true ↔ ∃ t, s = p ++ t := by
  induction p generalizing s with
  | nil => simp [strStartsWith]
  | cons b p ih =>
    cases s with
    | nil => simp [strStartsWith]
    | cons a s =>
      simp only [strStartsWith, Bool.and_eq_true, decide_eq_true_eq, ih, List.cons_append,
        List.cons.injEq]
      constructor
      · rintro ⟨rfl, t, rfl⟩
        exact ⟨t, rfl, rfl⟩
      · rintro ⟨t, rfl, rfl⟩
        exact ⟨rfl, t, rfl⟩

theorem strContains_iff (s sub : Str) :
    strContains s sub = true ↔ ∃ a b, s = a ++ sub ++ b := by
  induction s with
  | nil =>
    simp only [strContains, strStartsWith_iff]
    constructor
    · rintro ⟨t, ht⟩
      exact ⟨[], t, by simpa using ht⟩
    · rintro ⟨a, b, h⟩
      rcases List.append_eq_nil.mp h.symm with ⟨h1, h2⟩
      rcases List.append_eq_nil.mp h1 with ⟨rfl, rfl⟩
      exact ⟨[], by simp⟩
  | cons c s ih =>
    simp only [strContains, Bool.or_eq_true, strStartsWith_iff, ih]
    constructor
    · rintro (⟨t, ht⟩ | ⟨a, b, h⟩)
      · exact ⟨[], t, by simpa using ht⟩
      · exact ⟨c :: a, b, by simp [h]⟩
    · rintro ⟨a, b, h⟩
      cases a with
      | nil => exact Or.inl ⟨b, by simpa using h⟩
      | cons x a =>
        simp only [List.cons_append, List.cons.injEq] at h
        exact Or.inr ⟨a, b, h.2⟩

/-- C3: for every execution by the local executor (and the local-style
execution paths of the security variants) whose deadline elapses before
the child process exits, the call returns a normal ExecutionResult, not an
error, with stderr "Execution timed out" and exit code -1, whatever
partial output was captured. -/
theorem timeout_yields_sentinel_result (filePath language : Str) (run : RunOutcome)
    (hfile : ∃ cmd, getCommandForLanguage (getLanguageFromFile filePath) filePath =
      Except.ok cmd)
    (hlang : ∃ cmd, containerizedRunCommand language filePath = Except.ok cmd)
    (hdl : run.deadlineExceeded = true) :
    localExecuteFile filePath run =
      Except.ok ⟨run.output, timedOutMsg, -1, run.durationNs⟩ ∧
    secureExecuteFile filePath run =
      Except.ok ⟨run.output, timedOutMsg, -1, run.durationNs⟩ ∧
    containerizedExecuteWithDocker language filePath run =
      Except.ok ⟨run.output, timedOutMsg, -1, run.durationNs⟩ ∧
    containerizedExecuteLocally language filePath run =
      Except.ok ⟨run.output, timedOutMsg, -1, run.durationNs⟩ ∧
    (∀ dockerAvailable, containerizedExecuteFile filePath dockerAvailable run =
      Except.ok ⟨run.output, timedOutMsg, -1, run.durationNs⟩) := by
  obtain ⟨cmd, hc⟩ := hfile
  obtain ⟨cmd2, hc2⟩ := hlang
  have hlang2 : ∃ c, getCommandForLanguage language filePath = Except.ok c := by
    unfold containerizedRunCommand at hc2
    unfold getCommandForLanguage
    split at hc2 <;> split <;> simp_all
  obtain ⟨cmd3, hc3⟩ := hlang2
  have hcap : captureResult run = ⟨run.output, timedOutMsg, -1, run.durationNs⟩ := by
    unfold captureResult
    rw [hdl]
    simp
  have hwd : ∃ c, containerizedRunCommand (getLanguageFromFile filePath) filePath =
      Except.ok c := by
    unfold getCommandForLanguage at hc
    unfold containerizedRunCommand
    split at hc <;> split <;> simp_all
  obtain ⟨cmd4, hc4⟩ := hwd
  refine ⟨?_, ?_, ?_, ?_, ?_⟩
  · simp [localExecuteFile, hc, hcap]
  · simp [secureExecuteFile, hc, hcap]
  · simp [containerizedExecuteWithDocker, hc2, hcap]
  · simp [containerizedExecuteLocally, hc3, hcap]
  · intro avail
    cases avail with
    | false => simp [containerizedExecuteFile, containerizedExecuteLocally, hc, hcap]
    | true => simp [containerizedExecuteFile, containerizedExecuteWithDocker, hc4, hcap]

/-- Witness for C3 at the file main.py and language python. -/
theorem timeout_yields_sentinel_result_witness :
    localExecuteFile ("main.py".toList) timeoutRunExample =
      Except.ok ⟨timeoutRunExample.output, timedOutMsg, -1, timeoutRunExample.durationNs⟩ ∧
    secureExecuteFile ("main.py".toList) timeoutRunExample =
      Except.ok ⟨timeoutRunExample.output, timedOutMsg, -1, timeoutRunExample.durationNs⟩ ∧
    containerizedExecuteWithDocker pythonTag ("main.py".toList) timeoutRunExample =
      Except.ok ⟨timeoutRunExample.output, timedOutMsg, -1, timeoutRunExample.durationNs⟩ ∧
    containerizedExecuteLocally pythonTag ("main.py".toList) timeoutRunExample =
      Except.ok ⟨timeoutRunExample.output, timedOutMsg, -1, timeoutRunExample.durationNs⟩ ∧
    (∀ dockerAvailable,
      containerizedExecuteFile ("main.py".toList) dockerAvailable timeoutRunExample =
        Except.ok ⟨timeoutRunExample.output, timedOutMsg, -1, timeoutRunExample.durationNs⟩) :=
  timeout_yields_sentinel_result ("main.py".toList) pythonTag timeoutRunExample
    ⟨[pythonTag, "main.py".toList], by rfl⟩
    ⟨[pythonTag, "main.py".toList], by rfl⟩
    (by decide)

/-- Every language the extension inference can produce. -/
theorem getLanguageFromFile_cases (filePath : Str) :
    getLanguageFromFile filePath = pythonTag ∨ getLanguageFromFile filePath = goTag ∨
    getLanguageFromFile filePath = jsTag ∨ getLanguageFromFile filePath = unknownTag := by
  unfold getLanguageFromFile
  split
  · exact Or.inl rfl
  · split
    · exact Or.inr (Or.inl rfl)
    · split
      · exact Or.inr (Or.inr (Or.inl rfl))
      · exact Or.inr (Or.inr (Or.inr rfl))

/-- C4 (amended): for every language tag outside python, go and javascript,
execute and executeFile on the local strategy and on the docker executor
fail with an unsupported-language error regardless of any process outcome
(so no child process is ever consulted), while the generic container
strategy is a placeholder whose language check always answers true: it
accepts every language tag and returns a canned successful result without
spawning anything. -/
theorem unsupported_language_rejection_amended :
    (∀ language, language ∉ [pythonTag, goTag, jsTag] →
      (∀ code tempDir run, localExecute language code tempDir run =
        Except.error ("failed to write code to file: ".toList ++
          ("unsupported language: ".toList ++ language))) ∧
      (∀ code tempDir env, dockerExecute language code tempDir env =
        Except.error ("failed to write code to file: ".toList ++
          ("unsupported language: ".toList ++ language))) ∧
      (∀ code, containerExecute language code =
        Except.ok (containerRunContainer pythonTag (containerGetImageForLanguage pythonTag)))) ∧
    (∀ filePath, getLanguageFromFile filePath ∉ [pythonTag, goTag, jsTag] →
      (∀ run, localExecuteFile filePath run =
        Except.error ("unsupported language: ".toList ++ getLanguageFromFile filePath)) ∧
      (∀ env, dockerExecuteFile filePath env =
        Except.error ("unsupported language: ".toList ++ getLanguageFromFile filePath)) ∧
      containerExecuteFile filePath =
        Except.ok (containerRunContainer pythonTag (containerGetImageForLanguage pythonTag))) := by
  constructor
  · intro language h
    simp only [List.mem_cons, List.not_mem_nil, or_false, not_or] at h
    obtain ⟨h1, h2, h3⟩ := h
    refine ⟨?_, ?_, ?_⟩
    · intro code tempDir run
      simp [localExecute, writeCodeToFile, h1, h2, h3]
    · intro code tempDir env
      simp [dockerExecute, writeCodeToFile, h1, h2, h3]
    · intro code
      rfl
  · intro filePath h
    simp only [List.mem_cons, List.not_mem_nil, or_false, not_or] at h
    obtain ⟨h1, h2, h3⟩ := h
    have hL : getLanguageFromFile filePath = unknownTag := by
      rcases getLanguageFromFile_cases filePath with h' | h' | h' | h' <;> simp_all
    refine ⟨?_, ?_, ?_⟩
    · intro run
      rw [localExecuteFile, hL]
      have : getCommandForLanguage unknownTag filePath =
          Except.error ("unsupported language: ".toList ++ unknownTag) := by
        unfold getCommandForLanguage
        have e1 : unknownTag ≠ pythonTag := by decide
        have e2 : unknownTag ≠ goTag := by decide
        have e3 : unknownTag ≠ jsTag := by decide
        simp [e1, e2, e3]
      rw [this]
    · intro env
      rw [dockerExecuteFile, hL]
      have : dockerIsLanguageSupported unknownTag = false := by decide
      rw [this]
      simp
    · rfl

/-- C4 counterexample: the generic container strategy does not reject the
language tag cobol; it returns a canned successful result instead of an
unsupported-language error. -/
theorem unsupported_language_rejection_cex :
    containerExecute ("cobol".toList) ("x".toList) =
      Except.ok
        { stdout :=
            "Container execution would run python code in python:3.9-alpine container".toList,
          stderr := [], exitCode := 0, durationNs := 100000000 } := by
  rfl

/-- Witness for the amended C4 at the language tag cobol and a file with a
cob extension. -/
theorem unsupported_language_rejection_witness :
    ("cobol".toList ∉ [pythonTag, goTag, jsTag]) ∧
    (getLanguageFromFile ("main.cob".toList) ∉ [pythonTag, goTag, jsTag]) ∧
    localExecute ("cobol".toList) ("x".toList) ("/tmp/t".toList) ⟨[], 0, none, false⟩ =
      Except.error ("failed to write code to file: ".toList ++
        ("unsupported language: ".toList ++ "cobol".toList)) ∧
    dockerExecute ("cobol".toList) ("x".toList) ("/tmp/t".toList) ⟨true, true, ⟨[], 0, none, false⟩⟩ =
      Except.error ("failed to write code to file: ".toList ++
        ("unsupported language: ".toList ++ "cobol".toList)) ∧
    (∀ run, localExecuteFile ("main.cob".toList) run =
      Except.error ("unsupported language: ".toList ++ getLanguageFromFile ("main.cob".toList))) :=
  ⟨by decide, by decide,
    ((unsupported_language_rejection_amended.1 ("cobol".toList) (by decide)).1
      ("x".toList) ("/tmp/t".toList) ⟨[], 0, none, false⟩),
    ((unsupported_language_rejection_amended.1 ("cobol".toList) (by decide)).2.1
      ("x".toList) ("/tmp/t".toList) ⟨true, true, ⟨[], 0, none, false⟩⟩),
    (unsupported_language_rejection_amended.2 ("main.cob".toList) (by decide)).1⟩

/-- C5: with the plugin directory flag set the CLI builds a composite
executor, and that executor routes every language claimed by a loaded
plugin to the plugin (whatever the language, including ones the built-in
strategies support), falling back to the container executor when the
container flag was supplied and to the local executor otherwise. -/
theorem composite_plugin_priority :
    (∀ flags : CLIFlags, flags.pluginDir ≠ [] →
      getExecutor flags = ExecutorChoice.compositeStrategy flags.containerized) ∧
    (∀ (α : Type) (plugins : Str → Option α) (useContainer : Bool)
      (pluginExec : α → Str → Str → Except Str ExecutionResult)
      (dockerExec localExec : Str → Str → Except Str ExecutionResult)
      (language code : Str),
      (∀ p, plugins language = some p →
        compositeExecute plugins useContainer pluginExec dockerExec localExec language code =
          pluginExec p language code) ∧
      (plugins language = none →
        compositeExecute plugins useContainer pluginExec dockerExec localExec language code =
          if useContainer then dockerExec language code else localExec language code)) := by
  constructor
  · intro flags h
    simp [getExecutor, h]
  · intro α plugins useContainer pluginExec dockerExec localExec language code
    constructor
    · intro p hp
      simp [compositeExecute, hp]
    · intro hp
      simp [compositeExecute, hp]

/-- Witness for C5: with plugin-dir and container both set the choice is
the composite executor; a python request is routed to the plugin even
though python is natively supported, and a ruby request falls back to the
docker executor because the container flag was supplied. -/
theorem composite_plugin_priority_witness :
    (CLIFlags.mk false true ("plugins".toList) 30000000000 128).pluginDir ≠ [] ∧
    getExecutor (CLIFlags.mk false true ("plugins".toList) 30000000000 128) =
      ExecutorChoice.compositeStrategy true ∧
    examplePluginMap pythonTag = some 0 ∧
    compositeExecute examplePluginMap true examplePluginExec exampleDockerExec exampleLocalExec
      pythonTag ("print(1)".toList) = examplePluginExec 0 pythonTag ("print(1)".toList) ∧
    examplePluginMap ("ruby".toList) = none ∧
    compositeExecute examplePluginMap true examplePluginExec exampleDockerExec exampleLocalExec
      ("ruby".toList) ("puts 1".toList) =
      (if true then exampleDockerExec ("ruby".toList) ("puts 1".toList)
       else exampleLocalExec ("ruby".toList) ("puts 1".toList)) :=
  ⟨by decide,
    composite_plugin_priority.1 (CLIFlags.mk false true ("plugins".toList) 30000000000 128)
      (by decide),
    by rfl,
    (composite_plugin_priority.2 Nat examplePluginMap true examplePluginExec exampleDockerExec
      exampleLocalExec pythonTag ("print(1)".toList)).1 0 (by rfl),
    by rfl,
    (composite_plugin_priority.2 Nat examplePluginMap true examplePluginExec exampleDockerExec
      exampleLocalExec ("ruby".toList) ("puts 1".toList)).2 (by rfl)⟩

/-- C6: the job listing returns exactly the jobs whose status equals the
status filter (or any status when that filter is empty) and whose language
equals the language filter (or any language when that filter is empty);
with both filters empty it returns all jobs. -/
theorem job_listing_filters (jobs : List Job) (status language : Str) :
    (∀ j, j ∈ listJobs jobs status language ↔
      j ∈ jobs ∧ (status = [] ∨ j.status = status) ∧
        (language = [] ∨ j.language = language)) ∧
    listJobs jobs [] [] = jobs := by
  constructor
  · intro j
    simp [listJobs, List.mem_filter, and_assoc]
  · simp [listJobs]

/-- C8: both execute handlers substitute timeout 30 and memory limit 128
exactly when the decoded field equals 0 (so a supplied 0 is
indistinguishable from an omitted field), and pass every non-zero value,
negative ones included, through to the job unchanged. -/
theorem execute_request_defaults (timeout memoryLimit : Int) :
    (timeout = 0 → (handleExecuteCodeDefaults timeout memoryLimit).1 = 30) ∧
    (timeout ≠ 0 → (handleExecuteCodeDefaults timeout memoryLimit).1 = timeout) ∧
    (memoryLimit = 0 → (handleExecuteCodeDefaults timeout memoryLimit).2 = 128) ∧
    (memoryLimit ≠ 0 → (handleExecuteCodeDefaults timeout memoryLimit).2 = memoryLimit) ∧
    (timeout < 0 → (handleExecuteCodeDefaults timeout memoryLimit).1 = timeout) ∧
    (memoryLimit < 0 → (handleExecuteCodeDefaults timeout memoryLimit).2 = memoryLimit) ∧
    handleExecuteFileDefaults timeout memoryLimit =
      handleExecuteCodeDefaults timeout memoryLimit := by
  refine ⟨?_, ?_, ?_, ?_, ?_, ?_, rfl⟩ <;> intro h
  · simp [handleExecuteCodeDefaults, h]
  · simp [handleExecuteCodeDefaults, h]
  · simp [handleExecuteCodeDefaults, h]
  · simp [handleExecuteCodeDefaults, h]
  · have hne : timeout ≠ 0 := by omega
    simp [handleExecuteCodeDefaults, hne]
  · have hne : memoryLimit ≠ 0 := by omega
    simp [handleExecuteCodeDefaults, hne]

/-- Witness for C8 at an omitted (zero) timeout and an explicit negative
memory limit. -/
theorem execute_request_defaults_witness :
    ((0 : Int) = 0) ∧ ((-5 : Int) ≠ 0) ∧
    (handleExecuteCodeDefaults 0 (-5)).1 = 30 ∧
    (handleExecuteCodeDefaults 0 (-5)).2 = -5 ∧
    handleExecuteFileDefaults 0 (-5) = handleExecuteCodeDefaults 0 (-5) :=
  ⟨rfl, by decide,
    (execute_request_defaults 0 (-5)).1 rfl,
    (execute_request_defaults 0 (-5)).2.2.2.1 (by decide),
    (execute_request_defaults 0 (-5)).2.2.2.2.2.2⟩

/-- C9: a plugin process that exits non-zero (or never starts) makes the
wrapper return an error whatever the output parses to, and a plugin result
is accepted only when the process exited 0 and its combined output parsed
as the expected shape. -/
theorem plugin_nonzero_exit_is_error
    (parse parseB : Str → Option ExecutionResult) :
    (∀ code msg output, code ≠ 0 →
      externalExecute parse (PluginRun.exited code msg output) =
        Except.error ("failed to execute code: ".toList ++ msg) ∧
      externalExecuteFile parse (PluginRun.exited code msg output) =
        Except.error ("failed to execute file: ".toList ++ msg) ∧
      externalExecute parse (PluginRun.exited code msg output) =
        externalExecute parseB (PluginRun.exited code msg output)) ∧
    (∀ msg,
      externalExecute parse (PluginRun.notStarted msg) =
        Except.error ("failed to execute code: ".toList ++ msg) ∧
      externalExecuteFile parse (PluginRun.notStarted msg) =
        Except.error ("failed to execute file: ".toList ++ msg)) ∧
    (∀ run r, externalExecute parse run = Except.ok r →
      ∃ msg output, run = PluginRun.exited 0 msg output ∧ parse output = some r) ∧
    (∀ run r, externalExecuteFile parse run = Except.ok r →
      ∃ msg output, run = PluginRun.exited 0 msg output ∧ parse output = some r) := by
  refine ⟨?_, ?_, ?_, ?_⟩
  · intro code msg output h
    refine ⟨?_, ?_, ?_⟩ <;>
      simp [externalExecute, externalExecuteFile, combinedOutputErr, h]
  · intro msg
    exact ⟨rfl, rfl⟩
  · intro run r h
    cases run with
    | notStarted msg => simp [externalExecute, combinedOutputErr] at h
    | exited code msg output =>
      by_cases hc : code = 0
      · subst hc
        simp only [externalExecute, combinedOutputErr, if_pos rfl] at h
        cases hp : parse (pluginRunOutput (PluginRun.exited 0 msg output)) with
        | none => rw [hp] at h; cases h
        | some r2 =>
          rw [hp] at h
          cases h
          exact ⟨msg, output, rfl, hp⟩
      · simp [externalExecute, combinedOutputErr, hc] at h
  · intro run r h
    cases run with
    | notStarted msg => simp [externalExecuteFile, combinedOutputErr] at h
    | exited code msg output =>
      by_cases hc : code = 0
      · subst hc
        simp only [externalExecuteFile, combinedOutputErr, if_pos rfl] at h
        cases hp : parse (pluginRunOutput (PluginRun.exited 0 msg output)) with
        | none => rw [hp] at h; cases h
        | some r2 =>
          rw [hp] at h
          cases h
          exact ⟨msg, output, rfl, hp⟩
      · simp [externalExecuteFile, combinedOutputErr, hc] at h

/-- Witness for C9 at exit status 2: the wrapper errors even though the
accepting parse function would have produced a well-formed result, and its
answer does not depend on the parse function at all. -/
theorem plugin_nonzero_exit_is_error_witness :
    ((2 : Int) ≠ 0) ∧
    externalExecute pluginParseAccepting
        (PluginRun.exited 2 ("exit status 2".toList) ("output".toList)) =
      Except.error ("failed to execute code: ".toList ++ "exit status 2".toList) ∧
    externalExecuteFile pluginParseAccepting
        (PluginRun.exited 2 ("exit status 2".toList) ("output".toList)) =
      Except.error ("failed to execute file: ".toList ++ "exit status 2".toList) ∧
    externalExecute pluginParseAccepting
        (PluginRun.exited 2 ("exit status 2".toList) ("output".toList)) =
      externalExecute pluginParseRejecting
        (PluginRun.exited 2 ("exit status 2".toList) ("output".toList)) :=
  ⟨by decide,
    ((plugin_nonzero_exit_is_error pluginParseAccepting pluginParseRejecting).1 2
      ("exit status 2".toList) ("output".toList) (by decide)).1,
    ((plugin_nonzero_exit_is_error pluginParseAccepting pluginParseRejecting).1 2
      ("exit status 2".toList) ("output".toList) (by decide)).2.1,
    ((plugin_nonzero_exit_is_error pluginParseAccepting pluginParseRejecting).1 2
      ("exit status 2".toList) ("output".toList) (by decide)).2.2⟩

theorem strContains_self (s : Str) : strContains s s = true :=
  (strContains_iff s s).mpr ⟨[], [], by simp⟩

theorem strContains_nil_of_ne (exp : Str) (h : exp ≠ []) : strContains [] exp = false := by
  cases exp with
  | nil => exact absurd rfl h
  | cons x t => rfl

/-- Stripping one trailing newline before the containment check is
invisible whenever the expected substring is non-empty and newline-free:
the stripped-stdout check (including its equality escape) succeeds exactly
when the raw stdout contains the substring. -/
theorem contains_strip_or_eq_iff (s exp : Str) (hne : exp ≠ []) (hnl : '\n' ∉ exp) :
    (strContains (stripTrailingNewline s) exp = true ∨ stripTrailingNewline s = exp) ↔
      strContains s exp = true := by
  rcases List.eq_nil_or_concat s with rfl | ⟨s0, c, rfl⟩
  · have h0 : stripTrailingNewline ([] : Str) = [] := rfl
    rw [h0, strContains_nil_of_ne exp hne]
    simp [Ne.symm hne]
  · simp only [List.concat_eq_append]
    by_cases hc : c = '\n'
    · subst hc
      have hstrip : stripTrailingNewline (s0 ++ ['\n']) = s0 := by
        simp [stripTrailingNewline, List.getLast?_concat, List.dropLast_concat]
      rw [hstrip]
      constructor
      · rintro (h | rfl)
        · rcases (strContains_iff _ _).mp h with ⟨a, b, rfl⟩
          exact (strContains_iff _ _).mpr ⟨a, b ++ ['\n'], by simp⟩
        · exact (strContains_iff _ _).mpr ⟨[], ['\n'], by simp⟩
      · intro h
        rcases (strContains_iff _ _).mp h with ⟨a, b, hab⟩
        rcases List.eq_nil_or_concat b with rfl | ⟨b0, x, rfl⟩
        · exfalso
          rcases List.eq_nil_or_concat exp with rfl | ⟨e0, e, rfl⟩
          · exact hne rfl
          · have h2 : s0 ++ ['\n'] = (a ++ e0) ++ [e] := by
              rw [hab]; simp
            have h3 : some '\n' = some e := by
              have := congrArg List.getLast? h2
              simpa [List.getLast?_concat] using this
            have : e = '\n' := (Option.some.injEq _ _ ▸ h3).symm
            exact hnl (by simp [this])
        · refine Or.inl ?_
          have h2 : s0 ++ ['\n'] = (a ++ exp ++ b0) ++ [x] := by
            rw [hab]; simp
          have hs0 : s0 = a ++ exp ++ b0 := by
            have := congrArg List.dropLast h2
            simpa [List.dropLast_concat] using this
          exact (strContains_iff _ _).mpr ⟨a, b0, hs0⟩
    · have hstrip : stripTrailingNewline (s0 ++ [c]) = s0 ++ [c] := by
        simp [stripTrailingNewline, List.getLast?_concat, hc]
      rw [hstrip]
      constructor
      · rintro (h | rfl)
        · exact h
        · exact strContains_self _
      · exact fun h => Or.inl h

/-- The containment branch of validateTestResult, characterized for any
case whose declared expected output is newline-free (true of every case in
the fixed catalogue). -/
theorem validate_contained_iff (t : TestCase) (r : ExecutionResult)
    (hc : t.expectedResult.shouldBeContained = true)
    (hnl : '\n' ∉ t.expectedResult.expectedOutput) :
    validateTestResult t r = true ↔
      (r.exitCode = -1 ∨ r.exitCode ≠ 0 ∨
        (t.expectedResult.expectedOutput ≠ [] ∧
          strContains r.stdout t.expectedResult.expectedOutput = true) ∨
        r.stderr ≠ []) := by
  by_cases h1 : r.exitCode = -1
  · simp [validateTestResult, hc, h1]
  · by_cases h2 : r.exitCode = 0
    · by_cases ho : t.expectedResult.expectedOutput = []
      · simp [validateTestResult, hc, h1, h2, ho]
      · by_cases hs : r.stdout = []
        · have hz : strContains ([] : Str) t.expectedResult.expectedOutput = false :=
            strContains_nil_of_ne _ ho
          simp [validateTestResult, hc, h1, h2, ho, hs, hz]
        · have key := contains_strip_or_eq_iff r.stdout t.expectedResult.expectedOutput ho hnl
          by_cases hm : (strContains (stripTrailingNewline r.stdout)
              t.expectedResult.expectedOutput = true ∨
              stripTrailingNewline r.stdout = t.expectedResult.expectedOutput)
          · have hx : strContains r.stdout t.expectedResult.expectedOutput = true := key.mp hm
            simp [validateTestResult, hc, h1, h2, ho, hs, hm, hx]
          · have hx : ¬ strContains r.stdout t.expectedResult.expectedOutput = true :=
              fun h => hm (key.mpr h)
            simp [validateTestResult, hc, h1, h2, ho, hs, hm, hx]
    · simp [validateTestResult, hc, h1, h2]

/-- The non-containment branch of validateTestResult only ever passes on an
exact exit-code match and, when an output substring is declared, on that
substring occurring in stdout. -/
theorem validate_not_contained (t : TestCase) (r : ExecutionResult)
    (hc : t.expectedResult.shouldBeContained = false)
    (hv : validateTestResult t r = true) :
    r.exitCode = t.expectedResult.expectedExitCode ∧
    (t.expectedResult.expectedOutput ≠ [] →
      strContains r.stdout t.expectedResult.expectedOutput = true) := by
  by_cases h1 : r.exitCode = t.expectedResult.expectedExitCode
  · refine ⟨h1, ?_⟩
    intro ho
    by_cases hm : strContains r.stdout t.expectedResult.expectedOutput = true
    · exact hm
    · by_cases he : r.stdout = t.expectedResult.expectedOutput
      · rw [he]; exact strContains_self _
      · exfalso
        simp [validateTestResult, hc, h1, ho, hm, he] at hv
  · exfalso
    simp [validateTestResult, hc, h1] at hv

/-- C2: for every catalogue case expecting containment, the harness marks
the case passed exactly when the exit code is -1, or the exit code is
non-zero, or the case declares an expected-output substring occurring in
the captured stdout, or the captured stderr is non-empty; for the case not
expecting containment, it passes only on an exact exit-code match with the
declared substring occurring in stdout. -/
theorem security_adjudication_rule (test : TestCase) (htest : test ∈ securityTests)
    (r : ExecutionResult) :
    (test.expectedResult.shouldBeContained = true →
      (validateTestResult test r = true ↔
        (r.exitCode = -1 ∨ r.exitCode ≠ 0 ∨
          (test.expectedResult.expectedOutput ≠ [] ∧
            strContains r.stdout test.expectedResult.expectedOutput = true) ∨
          r.stderr ≠ []))) ∧
    (test.expectedResult.shouldBeContained = false →
      validateTestResult test r = true →
      r.exitCode = test.expectedResult.expectedExitCode ∧
      (test.expectedResult.expectedOutput ≠ [] →
        strContains r.stdout test.expectedResult.expectedOutput = true)) := by
  constructor
  · intro hc
    refine validate_contained_iff test r hc ?_
    simp only [securityTests, List.mem_cons, List.not_mem_nil, or_false] at htest
    rcases htest with rfl | rfl | rfl | rfl | rfl <;> decide
  · intro hc
    exact validate_not_contained test r hc

/-- Witness for C2 at the file-system case with a stdout that contains the
declared substring and a clean exit. -/
theorem security_adjudication_rule_witness :
    fileSystemCase ∈ securityTests ∧
    fileSystemCase.expectedResult.shouldBeContained = true ∧
    (validateTestResult fileSystemCase ⟨"Access denied\n".toList, [], 0, 5⟩ = true ↔
      (((⟨"Access denied\n".toList, [], 0, 5⟩ : ExecutionResult).exitCode = -1 ∨
        (⟨"Access denied\n".toList, [], 0, 5⟩ : ExecutionResult).exitCode ≠ 0 ∨
        (fileSystemCase.expectedResult.expectedOutput ≠ [] ∧
          strContains (⟨"Access denied\n".toList, [], 0, 5⟩ : ExecutionResult).stdout
            fileSystemCase.expectedResult.expectedOutput = true) ∨
        (⟨"Access denied\n".toList, [], 0, 5⟩ : ExecutionResult).stderr ≠ []))) :=
  ⟨by decide, by decide,
    (security_adjudication_rule fileSystemCase (by decide)
      ⟨"Access denied\n".toList, [], 0, 5⟩).1 (by decide)⟩

/-- C10: when the executor call itself returns an infrastructure error (so
there is no ExecutionResult at all), RunTest records the error, attaches
no result, and sets the passed flag equal to the should-be-contained
expectation: every containment-expecting catalogue case passes and the
valid-code case fails. -/
theorem infrastructure_error_adjudication :
    (∀ (test : TestCase) (e : Str) (d : Nat),
      (runTest test (Except.error e) d).passed = test.expectedResult.shouldBeContained ∧
      (runTest test (Except.error e) d).error = some e ∧
      (runTest test (Except.error e) d).actualResult = none) ∧
    (∀ (e : Str) (d : Nat),
      (runTest cpuExhaustionCase (Except.error e) d).passed = true ∧
      (runTest memoryExhaustionCase (Except.error e) d).passed = true ∧
      (runTest fileSystemCase (Except.error e) d).passed = true ∧
      (runTest networkCase (Except.error e) d).passed = true ∧
      (runTest validCodeCase (Except.error e) d).passed = false) :=
  ⟨fun _ _ _ => ⟨rfl, rfl, rfl⟩, fun _ _ => ⟨rfl, rfl, rfl, rfl, rfl⟩⟩

theorem perfFold_totalTime (samples : List (Nat × Bool)) (m : PerformanceMetrics) :
    (samples.foldl recordSample m).totalTimeNs = m.totalTimeNs + (samples.map Prod.fst).sum := by
  induction samples generalizing m with
  | nil => simp
  | cons s t ih =>
    simp only [List.foldl_cons, ih, List.map_cons, List.sum_cons, recordSample]
    omega

theorem perfFold_min_le_init (samples : List (Nat × Bool)) (m : PerformanceMetrics) :
    (samples.foldl recordSample m).minTimeNs ≤ m.minTimeNs := by
  induction samples generalizing m with
  | nil => simp
  | cons s t ih =>
    refine le_trans (ih _) ?_
    simp only [recordSample]
    split <;> omega

theorem perfFold_min_le_mem (samples : List (Nat × Bool)) (m : PerformanceMetrics) :
    ∀ p ∈ samples, (samples.foldl recordSample m).minTimeNs ≤ p.1 := by
  induction samples generalizing m with
  | nil => intro p hp; cases hp
  | cons s t ih =>
    intro p hp
    rcases List.mem_cons.mp hp with rfl | hp
    · refine le_trans (perfFold_min_le_init t (recordSample m p)) ?_
      simp only [recordSample]
      split <;> omega
    · exact ih (recordSample m s) p hp

theorem perfFold_max_ge_mem (samples : List (Nat × Bool)) (m : PerformanceMetrics) :
    ∀ p ∈ samples, p.1 ≤ (samples.foldl recordSample m).maxTimeNs := by
  induction samples generalizing m with
  | nil => intro p hp; cases hp
  | cons s t ih =>
    have hinit : ∀ (t2 : List (Nat × Bool)) (m2 : PerformanceMetrics),
        m2.maxTimeNs ≤ (t2.foldl recordSample m2).maxTimeNs := by
      intro t2
      induction t2 with
      | nil => intro m2; simp
      | cons s2 t2 ih2 =>
        intro m2
        refine le_trans ?_ (ih2 (recordSample m2 s2))
        simp only [recordSample]
        split <;> omega
    intro p hp
    rcases List.mem_cons.mp hp with rfl | hp
    · refine le_trans ?_ (hinit t (recordSample m p))
      simp only [recordSample]
      split <;> omega
    · exact ih (recordSample m s) p hp

theorem length_mul_le_listSum (l : List Nat) (m : Nat) (h : ∀ d ∈ l, m ≤ d) :
    l.length * m ≤ l.sum := by
  induction l with
  | nil => simp
  | cons d t ih =>
    have h1 : m ≤ d := h d (List.mem_cons_self d t)
    have h2 : t.length * m ≤ t.sum := ih fun x hx => h x (List.mem_cons_of_mem d hx)
    simp only [List.length_cons, List.sum_cons]
    calc (t.length + 1) * m = t.length * m + m := by ring
    _ ≤ t.sum + d := by omega
    _ = d + t.sum := by omega

theorem listSum_le_length_mul (l : List Nat) (M : Nat) (h : ∀ d ∈ l, d ≤ M) :
    l.sum ≤ l.length * M := by
  induction l with
  | nil => simp
  | cons d t ih =>
    have h1 : d ≤ M := h d (List.mem_cons_self d t)
    have h2 : t.sum ≤ t.length * M := ih fun x hx => h x (List.mem_cons_of_mem d hx)
    simp only [List.length_cons, List.sum_cons]
    calc d + t.sum ≤ M + t.length * M := by omega
    _ = (t.length + 1) * M := by ring

/-- C7: for every ten-run measurement, the derived metrics satisfy
average = total divided by 10 in integer duration arithmetic,
minimum ≤ average ≤ maximum, total executions equal 10, and the success
rate equals successful divided by 10 times 100. -/
theorem performance_metrics_arith (executorName testCaseName : Str)
    (samples : List (Nat × Bool)) (hlen : samples.length = 10) :
    (runPerformanceTest executorName testCaseName samples).averageTimeNs =
      (runPerformanceTest executorName testCaseName samples).totalTimeNs / 10 ∧
    (runPerformanceTest executorName testCaseName samples).minTimeNs ≤
      (runPerformanceTest executorName testCaseName samples).averageTimeNs ∧
    (runPerformanceTest executorName testCaseName samples).averageTimeNs ≤
      (runPerformanceTest executorName testCaseName samples).maxTimeNs ∧
    (runPerformanceTest executorName testCaseName samples).totalExecutions = 10 ∧
    (runPerformanceTest executorName testCaseName samples).successRate =
      ((runPerformanceTest executorName testCaseName samples).successfulExecutions : ℚ)
        / 10 * 100 := by
  have hmin : ∀ p ∈ samples,
      (samples.foldl recordSample (perfInit executorName testCaseName)).minTimeNs ≤ p.1 :=
    perfFold_min_le_mem samples (perfInit executorName testCaseName)
  have hmax : ∀ p ∈ samples,
      p.1 ≤ (samples.foldl recordSample (perfInit executorName testCaseName)).maxTimeNs :=
    perfFold_max_ge_mem samples (perfInit executorName testCaseName)
  have htot : (samples.foldl recordSample (perfInit executorName testCaseName)).totalTimeNs =
      (samples.map Prod.fst).sum := by
    simpa [perfInit] using perfFold_totalTime samples (perfInit executorName testCaseName)
  have hlen2 : (samples.map Prod.fst).length = 10 := by simp [hlen]
  have hlow : 10 * (samples.foldl recordSample (perfInit executorName testCaseName)).minTimeNs ≤
      (samples.map Prod.fst).sum := by
    have := length_mul_le_listSum (samples.map Prod.fst)
      (samples.foldl recordSample (perfInit executorName testCaseName)).minTimeNs
      (by
        intro d hd
        rcases List.mem_map.mp hd with ⟨p, hp, rfl⟩
        exact hmin p hp)
    rw [hlen2] at this
    omega
  have hhigh : (samples.map Prod.fst).sum ≤
      10 * (samples.foldl recordSample (perfInit executorName testCaseName)).maxTimeNs := by
    have := listSum_le_length_mul (samples.map Prod.fst)
      (samples.foldl recordSample (perfInit executorName testCaseName)).maxTimeNs
      (by
        intro d hd
        rcases List.mem_map.mp hd with ⟨p, hp, rfl⟩
        exact hmax p hp)
    rw [hlen2] at this
    omega
  refine ⟨rfl, ?_, ?_, rfl, rfl⟩
  · show (samples.foldl recordSample (perfInit executorName testCaseName)).minTimeNs ≤
      (samples.foldl recordSample (perfInit executorName testCaseName)).totalTimeNs / 10
    rw [htot]
    rw [Nat.le_div_iff_mul_le (by norm_num)]
    omega
  · show (samples.foldl recordSample (perfInit executorName testCaseName)).totalTimeNs / 10 ≤
      (samples.foldl recordSample (perfInit executorName testCaseName)).maxTimeNs
    rw [htot]
    calc (samples.map Prod.fst).sum / 10 ≤
        (10 * (samples.foldl recordSample (perfInit executorName testCaseName)).maxTimeNs) / 10 :=
          Nat.div_le_div_right hhigh
    _ = (samples.foldl recordSample (perfInit executorName testCaseName)).maxTimeNs :=
          Nat.mul_div_cancel_left _ (by norm_num)

/-- Witness for C7 at a concrete ten-run sample list. -/
theorem performance_metrics_arith_witness :
    perfSamplesExample.length = 10 ∧
    (runPerformanceTest ("Local Executor".toList) ("Simple Print".toList)
        perfSamplesExample).averageTimeNs =
      (runPerformanceTest ("Local Executor".toList) ("Simple Print".toList)
        perfSamplesExample).totalTimeNs / 10 ∧
    (runPerformanceTest ("Local Executor".toList) ("Simple Print".toList)
        perfSamplesExample).minTimeNs ≤
      (runPerformanceTest ("Local Executor".toList) ("Simple Print".toList)
        perfSamplesExample).averageTimeNs ∧
    (runPerformanceTest ("Local Executor".toList) ("Simple Print".toList)
        perfSamplesExample).averageTimeNs ≤
      (runPerformanceTest ("Local Executor".toList) ("Simple Print".toList)
        perfSamplesExample).maxTimeNs ∧
    (runPerformanceTest ("Local Executor".toList) ("Simple Print".toList)
        perfSamplesExample).totalExecutions = 10 :=
  ⟨by decide,
    (performance_metrics_arith ("Local Executor".toList) ("Simple Print".toList)
      perfSamplesExample (by decide)).1,
    (performance_metrics_arith ("Local Executor".toList) ("Simple Print".toList)
      perfSamplesExample (by decide)).2.1,
    (performance_metrics_arith ("Local Executor".toList) ("Simple Print".toList)
      perfSamplesExample (by decide)).2.2.1,
    (performance_metrics_arith ("Local Executor".toList) ("Simple Print".toList)
      perfSamplesExample (by decide)).2.2.2.1⟩

theorem filter_nonCancel_nil (es : List JobEvent) (h : es.filter nonCancel = []) :
    ∃ k, es = List.replicate k JobEvent.cancel := by
  induction es with
  | nil => exact ⟨0, rfl⟩
  | cons e t ih =>
    cases e with
    | cancel =>
      rw [List.filter_cons_of_neg (by simp [nonCancel])] at h
      obtain ⟨k, rfl⟩ := ih h
      exact ⟨k + 1, by rw [List.replicate_succ]⟩
    | beginExec => simp [List.filter_cons, nonCancel] at h
    | finishExec ok => simp [List.filter_cons, nonCancel] at h

theorem filter_nonCancel_finish (es : List JobEvent) (ok : Bool)
    (h : es.filter nonCancel = [JobEvent.finishExec ok]) :
    ∃ j k, es = List.replicate j JobEvent.cancel ++
      JobEvent.finishExec ok :: List.replicate k JobEvent.cancel := by
  induction es with
  | nil => simp at h
  | cons e t ih =>
    cases e with
    | cancel =>
      rw [List.filter_cons_of_neg (by simp [nonCancel])] at h
      obtain ⟨j, k, rfl⟩ := ih h
      exact ⟨j + 1, k, by rw [List.replicate_succ, List.cons_append]⟩
    | beginExec =>
      rw [List.filter_cons_of_pos (by simp [nonCancel])] at h
      simp at h
    | finishExec ok2 =>
      rw [List.filter_cons_of_pos (by simp [nonCancel])] at h
      simp only [List.cons.injEq, JobEvent.finishExec.injEq] at h
      obtain ⟨rfl, h2⟩ := h
      obtain ⟨k, rfl⟩ := filter_nonCancel_nil t h2
      exact ⟨0, k, rfl⟩

theorem filter_nonCancel_begin_finish (es : List JobEvent) (ok : Bool)
    (h : es.filter nonCancel = [JobEvent.beginExec, JobEvent.finishExec ok]) :
    ∃ i j k, es = List.replicate i JobEvent.cancel ++
      JobEvent.beginExec :: (List.replicate j JobEvent.cancel ++
        JobEvent.finishExec ok :: List.replicate k JobEvent.cancel) := by
  induction es with
  | nil => simp at h
  | cons e t ih =>
    cases e with
    | cancel =>
      rw [List.filter_cons_of_neg (by simp [nonCancel])] at h
      obtain ⟨i, j, k, rfl⟩ := ih h
      exact ⟨i + 1, j, k, by rw [List.replicate_succ, List.cons_append]⟩
    | beginExec =>
      rw [List.filter_cons_of_pos (by simp [nonCancel])] at h
      simp only [List.cons.injEq] at h
      obtain ⟨j, k, rfl⟩ := filter_nonCancel_finish t ok h.2
      exact ⟨0, j, k, rfl⟩
    | finishExec ok2 =>
      rw [List.filter_cons_of_pos (by simp [nonCancel])] at h
      simp at h

/-- Every interleaving accepted by isWorkerTrace decomposes into cancels
around one beginExec and one later finishExec. -/
theorem isWorkerTrace_decomp (es : List JobEvent) (h : isWorkerTrace es = true) :
    ∃ i j k ok, es = List.replicate i JobEvent.cancel ++
      JobEvent.beginExec :: (List.replicate j JobEvent.cancel ++
        JobEvent.finishExec ok :: List.replicate k JobEvent.cancel) := by
  unfold isWorkerTrace at h
  split at h
  · next ok heq =>
    obtain ⟨i, j, k, rfl⟩ := filter_nonCancel_begin_finish es ok heq
    exact ⟨i, j, k, ok, rfl⟩
  · exact absurd h (by simp)

theorem jobStep_cancel_idem (s : Str) :
    jobStep (jobStep s JobEvent.cancel) JobEvent.cancel = jobStep s JobEvent.cancel := by
  by_cases h : s = pendingS ∨ s = runningS
  · have h1 : jobStep s JobEvent.cancel = cancelledS := by simp [jobStep, h]
    rw [h1]
    rfl
  · have h1 : jobStep s JobEvent.cancel = s := by simp [jobStep, h]
    rw [h1, h1]

theorem statusTrace_replicate_cancel_append (s : Str) (hfix : jobStep s JobEvent.cancel = s)
    (m : Nat) (rest : List JobEvent) :
    statusTrace s (List.replicate m JobEvent.cancel ++ rest) =
      List.replicate m s ++ statusTrace s rest := by
  induction m with
  | zero => simp
  | succ m ih =>
    rw [List.replicate_succ, List.cons_append]
    show s :: statusTrace (jobStep s JobEvent.cancel) (List.replicate m JobEvent.cancel ++ rest) =
      List.replicate (m + 1) s ++ statusTrace s rest
    rw [hfix, ih, List.replicate_succ, List.cons_append]

theorem dedupConsec_cons_cons_eq (x : Str) (r : List Str) :
    dedupConsec (x :: x :: r) = dedupConsec (x :: r) := by
  simp [dedupConsec]

theorem dedupConsec_cons_cons_ne (x y : Str) (r : List Str) (h : x ≠ y) :
    dedupConsec (x :: y :: r) = x :: dedupConsec (y :: r) := by
  simp [dedupConsec, h]

theorem dedupConsec_cons_replicate (x : Str) (n : Nat) (r : List Str) :
    dedupConsec (x :: (List.replicate n x ++ r)) = dedupConsec (x :: r) := by
  induction n with
  | zero => simp
  | succ n ih =>
    rw [List.replicate_succ, List.cons_append, dedupConsec_cons_cons_eq]
    exact ih

theorem replicate_append_cons {α : Type} (x : α) (m : Nat) (X : List α) :
    List.replicate m x ++ (x :: X) = x :: (List.replicate m x ++ X) := by
  rw [← List.singleton_append, ← List.append_assoc, ← List.replicate_succ',
    List.replicate_succ, List.cons_append]

theorem dedup_run (y x : Str) (hxy : y ≠ x) (k : Nat) :
    dedupConsec (y :: (List.replicate k x ++ [x])) = [y, x] := by
  have h1 : List.replicate k x ++ [x] = x :: (List.replicate k x ++ []) :=
    replicate_append_cons x k []
  rw [h1, dedupConsec_cons_cons_ne y x _ hxy, List.append_nil]
  have h2 := dedupConsec_cons_replicate x k []
  simp only [List.append_nil] at h2
  rw [h2]
  rfl

/-- The exact deduplicated status sequence of every worker interleaving,
as a function of whether cancels landed before the begin, between begin
and finish, and of the execution outcome (cancels after the finish are
no-ops because completed and failed are not cancellable). -/
theorem worker_trace_shape (i j k : Nat) (ok : Bool) :
    dedupConsec (statusTrace pendingS (List.replicate i JobEvent.cancel ++
      JobEvent.beginExec :: (List.replicate j JobEvent.cancel ++
        JobEvent.finishExec ok :: List.replicate k JobEvent.cancel))) =
    (if i = 0 then [pendingS] else [pendingS, cancelledS]) ++
    (if j = 0 then [runningS] else [runningS, cancelledS]) ++
    [if ok then completedS else failedS] := by
  have hpr : pendingS ≠ runningS := by decide
  have hpc : pendingS ≠ cancelledS := by decide
  have hrc : runningS ≠ cancelledS := by decide
  have hcr : cancelledS ≠ runningS := by decide
  have hfixC : jobStep cancelledS JobEvent.cancel = cancelledS := rfl
  have hstepPB : jobStep pendingS JobEvent.beginExec = runningS := rfl
  have hstepCB : jobStep cancelledS JobEvent.beginExec = runningS := rfl
  have hstepPC : jobStep pendingS JobEvent.cancel = cancelledS := rfl
  have hstepRC : jobStep runningS JobEvent.cancel = cancelledS := rfl
  cases ok with
  | true =>
    have hfixT : jobStep completedS JobEvent.cancel = completedS := rfl
    have hstepF : ∀ s : Str, jobStep s (JobEvent.finishExec true) = completedS := fun _ => rfl
    have hrt : runningS ≠ completedS := by decide
    have hct : cancelledS ≠ completedS := by decide
    have tail : ∀ s : Str, statusTrace s (JobEvent.finishExec true ::
        List.replicate k JobEvent.cancel) =
        s :: (List.replicate k completedS ++ [completedS]) := by
      intro s
      show s :: statusTrace (jobStep s (JobEvent.finishExec true))
        (List.replicate k JobEvent.cancel) = _
      rw [hstepF s]
      rw [show List.replicate k JobEvent.cancel =
        List.replicate k JobEvent.cancel ++ [] from (List.append_nil _).symm]
      rw [statusTrace_replicate_cancel_append completedS hfixT k []]
      rfl
    cases i with
    | zero =>
      cases j with
      | zero =>
        simp only [List.replicate, List.nil_append]
        show dedupConsec (pendingS :: statusTrace (jobStep pendingS JobEvent.beginExec)
          (JobEvent.finishExec true :: List.replicate k JobEvent.cancel)) = _
        rw [hstepPB, tail runningS, dedupConsec_cons_cons_ne _ _ _ hpr, dedup_run _ _ hrt k]
        simp
      | succ m =>
        simp only [List.replicate, List.nil_append, List.cons_append]
        show dedupConsec (pendingS :: statusTrace (jobStep pendingS JobEvent.beginExec)
          (JobEvent.cancel :: (List.replicate m JobEvent.cancel ++
            JobEvent.finishExec true :: List.replicate k JobEvent.cancel))) = _
        rw [hstepPB]
        show dedupConsec (pendingS :: runningS ::
          statusTrace (jobStep runningS JobEvent.cancel)
            (List.replicate m JobEvent.cancel ++
              JobEvent.finishExec true :: List.replicate k JobEvent.cancel)) = _
        rw [hstepRC, statusTrace_replicate_cancel_append cancelledS hfixC m _, tail cancelledS,
          replicate_append_cons, dedupConsec_cons_cons_ne _ _ _ hpr,
          dedupConsec_cons_cons_ne _ _ _ hrc, dedupConsec_cons_replicate,
          dedup_run _ _ hct k]
        simp
    | succ n =>
      have head : statusTrace pendingS (JobEvent.cancel :: (List.replicate n JobEvent.cancel ++
          JobEvent.beginExec :: (List.replicate j JobEvent.cancel ++
            JobEvent.finishExec true :: List.replicate k JobEvent.cancel))) =
          pendingS :: (List.replicate n cancelledS ++ cancelledS ::
            statusTrace runningS (List.replicate j JobEvent.cancel ++
              JobEvent.finishExec true :: List.replicate k JobEvent.cancel)) := by
        show pendingS :: statusTrace (jobStep pendingS JobEvent.cancel) _ = _
        rw [hstepPC, statusTrace_replicate_cancel_append cancelledS hfixC n _]
        show pendingS :: (List.replicate n cancelledS ++ cancelledS ::
          statusTrace (jobStep cancelledS JobEvent.beginExec) _) = _
        rw [hstepCB]
      rw [show List.replicate (n + 1) JobEvent.cancel ++ _ =
        JobEvent.cancel :: (List.replicate n JobEvent.cancel ++
          JobEvent.beginExec :: (List.replicate j JobEvent.cancel ++
            JobEvent.finishExec true :: List.replicate k JobEvent.cancel)) from by
        rw [List.replicate_succ, List.cons_append]]
      rw [head, replicate_append_cons, dedupConsec_cons_cons_ne _ _ _ hpc,
        dedupConsec_cons_replicate]
      cases j with
      | zero =>
        simp only [List.replicate, List.nil_append]
        rw [tail runningS]
        rw [dedupConsec_cons_cons_ne _ _ _ hcr, dedup_run _ _ hrt k]
        simp [Nat.succ_ne_zero]
      | succ m =>
        rw [show List.replicate (m + 1) JobEvent.cancel ++ _ =
          JobEvent.cancel :: (List.replicate m JobEvent.cancel ++
            JobEvent.finishExec true :: List.replicate k JobEvent.cancel) from by
          rw [List.replicate_succ, List.cons_append]]
        rw [show statusTrace runningS (JobEvent.cancel ::
            (List.replicate m JobEvent.cancel ++
              JobEvent.finishExec true :: List.replicate k JobEvent.cancel)) =
          runningS :: statusTrace (jobStep runningS JobEvent.cancel)
            (List.replicate m JobEvent.cancel ++
              JobEvent.finishExec true :: List.replicate k JobEvent.cancel) from rfl]
        rw [hstepRC, statusTrace_replicate_cancel_append cancelledS hfixC m _, tail cancelledS,
          replicate_append_cons, dedupConsec_cons_cons_ne _ _ _ hcr,
          dedupConsec_cons_cons_ne _ _ _ hrc, dedupConsec_cons_replicate,
          dedup_run _ _ hct k]
        simp [Nat.succ_ne_zero]
  | false =>
    have hfixT : jobStep failedS JobEvent.cancel = failedS := rfl
    have hstepF : ∀ s : Str, jobStep s (JobEvent.finishExec false) = failedS := fun _ => rfl
    have hrt : runningS ≠ failedS := by decide
    have hct : cancelledS ≠ failedS := by decide
    have tail : ∀ s : Str, statusTrace s (JobEvent.finishExec false ::
        List.replicate k JobEvent.cancel) =
        s :: (List.replicate k failedS ++ [failedS]) := by
      intro s
      show s :: statusTrace (jobStep s (JobEvent.finishExec false))
        (List.replicate k JobEvent.cancel) = _
      rw [hstepF s]
      rw [show List.replicate k JobEvent.cancel =
        List.replicate k JobEvent.cancel ++ [] from (List.append_nil _).symm]
      rw [statusTrace_replicate_cancel_append failedS hfixT k []]
      rfl
    cases i with
    | zero =>
      cases j with
      | zero =>
        simp only [List.replicate, List.nil_append]
        show dedupConsec (pendingS :: statusTrace (jobStep pendingS JobEvent.beginExec)
          (JobEvent.finishExec false :: List.replicate k JobEvent.cancel)) = _
        rw [hstepPB, tail runningS, dedupConsec_cons_cons_ne _ _ _ hpr, dedup_run _ _ hrt k]
        simp
      | succ m =>
        simp only [List.replicate, List.nil_append, List.cons_append]
        show dedupConsec (pendingS :: statusTrace (jobStep pendingS JobEvent.beginExec)
          (JobEvent.cancel :: (List.replicate m JobEvent.cancel ++
            JobEvent.finishExec false :: List.replicate k JobEvent.cancel))) = _
        rw [hstepPB]
        show dedupConsec (pendingS :: runningS ::
          statusTrace (jobStep runningS JobEvent.cancel)
            (List.replicate m JobEvent.cancel ++
              JobEvent.finishExec false :: List.replicate k JobEvent.cancel)) = _
        rw [hstepRC, statusTrace_replicate_cancel_append cancelledS hfixC m _, tail cancelledS,
          replicate_append_cons, dedupConsec_cons_cons_ne _ _ _ hpr,
          dedupConsec_cons_cons_ne _ _ _ hrc, dedupConsec_cons_replicate,
          dedup_run _ _ hct k]
        simp
    | succ n =>
      have head : statusTrace pendingS (JobEvent.cancel :: (List.replicate n JobEvent.cancel ++
          JobEvent.beginExec :: (List.replicate j JobEvent.cancel ++
            JobEvent.finishExec false :: List.replicate k JobEvent.cancel))) =
          pendingS :: (List.replicate n cancelledS ++ cancelledS ::
            statusTrace runningS (List.replicate j JobEvent.cancel ++
              JobEvent.finishExec false :: List.replicate k JobEvent.cancel)) := by
        show pendingS :: statusTrace (jobStep pendingS JobEvent.cancel) _ = _
        rw [hstepPC, statusTrace_replicate_cancel_append cancelledS hfixC n _]
        show pendingS :: (List.replicate n cancelledS ++ cancelledS ::
          statusTrace (jobStep cancelledS JobEvent.beginExec) _) = _
        rw [hstepCB]
      rw [show List.replicate (n + 1) JobEvent.cancel ++ _ =
        JobEvent.cancel :: (List.replicate n JobEvent.cancel ++
          JobEvent.beginExec :: (List.replicate j JobEvent.cancel ++
            JobEvent.finishExec false :: List.replicate k JobEvent.cancel)) from by
        rw [List.replicate_succ, List.cons_append]]
      rw [head, replicate_append_cons, dedupConsec_cons_cons_ne _ _ _ hpc,
        dedupConsec_cons_replicate]
      cases j with
      | zero =>
        simp only [List.replicate, List.nil_append]
        rw [tail runningS]
        rw [dedupConsec_cons_cons_ne _ _ _ hcr, dedup_run _ _ hrt k]
        simp [Nat.succ_ne_zero]
      | succ m =>
        rw [show List.replicate (m + 1) JobEvent.cancel ++ _ =
          JobEvent.cancel :: (List.replicate m JobEvent.cancel ++
            JobEvent.finishExec false :: List.replicate k JobEvent.cancel) from by
          rw [List.replicate_succ, List.cons_append]]
        rw [show statusTrace runningS (JobEvent.cancel ::
            (List.replicate m JobEvent.cancel ++
              JobEvent.finishExec false :: List.replicate k JobEvent.cancel)) =
          runningS :: statusTrace (jobStep runningS JobEvent.cancel)
            (List.replicate m JobEvent.cancel ++
              JobEvent.finishExec false :: List.replicate k JobEvent.cancel) from rfl]
        rw [hstepRC, statusTrace_replicate_cancel_append cancelledS hfixC m _, tail cancelledS,
          replicate_append_cons, dedupConsec_cons_cons_ne _ _ _ hcr,
          dedupConsec_cons_cons_ne _ _ _ hrc, dedupConsec_cons_replicate,
          dedup_run _ _ hct k]
        simp [Nat.succ_ne_zero]

/-- C1 counterexample: cancelling a running job and letting the worker
finish is a legal interleaving whose status sequence is pending, running,
cancelled, completed — a sequence outside the specified set, in which the
cancelled status is later overwritten by completed. -/
theorem job_status_sequence_cex :
    isWorkerTrace [JobEvent.beginExec, JobEvent.cancel, JobEvent.finishExec true] = true ∧
    statusTrace pendingS [JobEvent.beginExec, JobEvent.cancel, JobEvent.finishExec true] =
      [pendingS, runningS, cancelledS, completedS] ∧
    dedupConsec (statusTrace pendingS
      [JobEvent.beginExec, JobEvent.cancel, JobEvent.finishExec true]) =
      [pendingS, runningS, cancelledS, completedS] ∧
    dedupConsec (statusTrace pendingS
      [JobEvent.beginExec, JobEvent.cancel, JobEvent.finishExec true]) ∉ specAllowedTraces :=
  ⟨rfl, rfl, rfl, by decide⟩

/-- C1 (amended): for every job created via the HTTP execute endpoints and
every legal interleaving of its worker with cancel requests, the sequence
of statuses the record passes through is pending (optionally interrupted
by cancelled) then running (optionally interrupted by cancelled) then
completed or failed: the worker enters running and then overwrites the
status with its terminal completed or failed unconditionally, so cancelled
is never final for an executed job, while cancelled itself is still only
ever entered from pending or running. -/
theorem job_status_sequence_amended (es : List JobEvent) (h : isWorkerTrace es = true) :
    dedupConsec (statusTrace pendingS es) ∈ amendedAllowedTraces := by
  obtain ⟨i, j, k, ok, rfl⟩ := isWorkerTrace_decomp es h
  rw [worker_trace_shape i j k ok]
  rcases i with _ | n <;> rcases j with _ | m <;> cases ok <;>
    simp [amendedAllowedTraces, Nat.succ_ne_zero]

/-- Witness for the amended C1 at the undisturbed interleaving: one begin,
one successful finish, no cancels. -/
theorem job_status_sequence_amended_witness :
    isWorkerTrace [JobEvent.beginExec, JobEvent.finishExec true] = true ∧
    dedupConsec (statusTrace pendingS [JobEvent.beginExec, JobEvent.finishExec true]) ∈
      amendedAllowedTraces :=
  ⟨rfl, job_status_sequence_amended [JobEvent.beginExec, JobEvent.finishExec true] rfl⟩
